import Mathlib

/-!
Verification of the chunked, transactional bulk-load engine of
`dataScienceUtils` (files `src/DatabaseHandler.py` and `src/utils.py`).

The Python code is shallowly embedded: pandas DataFrames become a record of
column (name, dtype-string) pairs plus a row count; the SQLAlchemy session is
modelled as explicit state passing plus a trace of session events; fallible
code returns `Except`.

Write path: the source's import style (`from sqlalchemy import Engine`) is
SQLAlchemy 2.0, which requires pandas >= 2.0, whose `to_sql` — when handed a
connection that is not inside a transaction, the case here for every chunk —
begins its own transaction and commits it when the call returns.  Each
successful chunk write is therefore durable at once; a failing chunk is
rolled back by pandas's own transaction, and the handler's session-level
rollback and close then find no open transaction and change nothing.

Maintenance path: `delete_records` operates on a working view (`pending`)
that becomes durable only at its explicit `commit`; `TRUNCATE` is modelled
as auto-committing, matching the Oracle dialect the source imports
(`sqlalchemy.dialects.oracle`).
-/

namespace DataScienceUtils

/-- SQL column types used by `infer_sql_types` in `src/utils.py`:
`String` and `DATE` from `sqlalchemy.types`, `NUMBER` and `FLOAT` from
`sqlalchemy.dialects.oracle`. -/
inductive SqlType where
  | String
  | FLOAT
  | DATE
  | NUMBER
deriving DecidableEq, Repr

/-- A pandas DataFrame, abstracted to what the bulk-load engine inspects:
the ordered list of (column name, dtype string) pairs and the row count
(`df.shape[0]`). -/
structure DataFrame where
  cols : List (String × String)
  nrows : Nat
deriving DecidableEq, Repr

/-- `df.empty` in pandas: true when any axis has length 0. -/
def DataFrame.empty (df : DataFrame) : Bool :=
  df.nrows == 0 || df.cols.isEmpty

/-- Errors raised by the embedded code: `EmptyDataFrameError` from
`src/utils.py`, and an opaque engine-level failure for driver errors. -/
inductive DSError where
  | EmptyDataFrameError (msg : String)
  | EngineError (msg : String)
deriving DecidableEq, Repr

/-- The dtype-string to SQL-type lookup table inside `infer_sql_types`
(`src/utils.py`, lines 202-211), in source order. -/
def sql_type_mapping : List (String × SqlType) :=
  [("object", SqlType.String),
   ("category", SqlType.String),
   ("string[pyarrow]", SqlType.String),
   ("double[pyarrow]", SqlType.FLOAT),
   ("datetime64[ns]", SqlType.DATE),
   ("timestamp[us][pyarrow]", SqlType.DATE),
   ("float64", SqlType.FLOAT),
   ("int64", SqlType.NUMBER)]

/-- `infer_sql_types` (`src/utils.py`, lines 191-217): raises
`EmptyDataFrameError` on an empty frame, otherwise maps every column's
dtype string through `sql_type_mapping`, defaulting to `String`. -/
def infer_sql_types (df : DataFrame) : Except DSError (List (String × SqlType)) :=
  if df.empty then Except.error (DSError.EmptyDataFrameError "DataFrame is empty.")
  else Except.ok (df.cols.map fun c => (c.1, (sql_type_mapping.lookup c.2).getD SqlType.String))

/-- Fuel-indexed body of Python `range(start, stop, step)`; the fuel
`stop - start` suffices for any positive step. -/
def pyRangeAux (fuel start stop step : Nat) : List Nat :=
  match fuel with
  | 0 => []
  | f + 1 => if start < stop then start :: pyRangeAux f (start + step) stop step else []

/-- Python `range(start, stop, step)` for a positive step (the source calls
it with `step = kwargs["chunksize"]`; a zero step raises in Python and is
never exercised by the claims). -/
def pyRangeStep (start stop step : Nat) : List Nat :=
  if step = 0 then [] else pyRangeAux (stop - start) start stop step

/-- The chunk ranges produced by the loop in `write_dataframe_to_db`
(`src/DatabaseHandler.py`, lines 130-132): for each `chunk_start` of
`range(0, rows, chunksize)`, the half-open interval
`[chunk_start, min (chunk_start + chunksize) rows)`. -/
def chunkRanges (rows csize : Nat) : List (Nat × Nat) :=
  (pyRangeStep 0 rows csize).map fun s => (s, min (s + csize) rows)

/-- One `to_sql` call for one chunk: target table, index of the dataframe in
the argument tuple, and the chunk's half-open row range. -/
structure ChunkWrite where
  table : String
  dfIdx : Nat
  rowStart : Nat
  rowStop : Nat
deriving DecidableEq, Repr

/-- Observable events of one `DatabaseHandler` operation: session-level calls
(`connect`, `close`, `rollback`, `commit`, statement executions, chunk
writes, result fetches) plus non-session observations (the tqdm progress
updates and the logged delete rowcount). -/
inductive Event where
  | connect
  | close
  | rollback
  | commit
  | executeTruncate (schema table : String)
  | executeDelete (table : String)
  | executeSelect
  | fetchAll
  | writeChunk (c : ChunkWrite)
  | progressUpdate (table : String) (rowsWritten totalRows : Nat)
  | logDeleted (rowcount : Nat)
deriving DecidableEq, Repr

/-- Events that are calls on the session/engine, as opposed to progress-bar
updates and log lines. -/
def isSessionOp : Event → Bool
  | Event.progressUpdate _ _ _ => false
  | Event.logDeleted _ => false
  | _ => true

/-- The `rowsWritten` values reported by the progress observations of a
trace, in order. -/
def progressValues (evs : List Event) : List Nat :=
  evs.filterMap fun e =>
    match e with
    | Event.progressUpdate _ n _ => some n
    | _ => none

/-- Events belonging to the chunk loop: chunk writes and progress updates. -/
def isWriteOrProgress : Event → Bool
  | Event.writeChunk _ => true
  | Event.progressUpdate _ _ _ => true
  | _ => false

/-- Recognizes traces of the shape (chunk write, then exactly one progress
update)*, the alternation produced by the chunk loop. -/
def chunksThenProgress : List Event → Bool
  | [] => true
  | Event.writeChunk _ :: Event.progressUpdate _ _ _ :: rest => chunksThenProgress rest
  | _ => false

/-- Engine-side semantics of the session operations on a state of type `σ`:
what acquiring a connection, rolling back, and closing do to the persistent
state. -/
structure ScopeOps (σ : Type) where
  connectS : σ → σ
  rollbackS : σ → σ
  closeS : σ → σ

/-- `DatabaseHandler._manage_session` (`src/DatabaseHandler.py`, lines
50-62): acquire a connection, run the body, roll back and re-raise on any
exception, and close the connection on every exit path (`finally`). -/
def manage_session {σ α : Type} (ops : ScopeOps σ)
    (body : σ → Except DSError α × List Event × σ) (s : σ) :
    Except DSError α × List Event × σ :=
  match body (ops.connectS s) with
  | (Except.ok a, evs, s2) =>
      (Except.ok a, Event.connect :: evs ++ [Event.close], ops.closeS s2)
  | (Except.error e, evs, s2) =>
      (Except.error e, Event.connect :: evs ++ [Event.rollback, Event.close],
        ops.closeS (ops.rollbackS s2))

/-- The engine as seen by the chunk writer: which chunk writes fail with a
driver error. -/
structure Engine where
  failsOn : ChunkWrite → Bool

/-- An engine on which every chunk write succeeds. -/
def engOk : Engine := ⟨fun _ => false⟩

/-- An engine that fails every chunk write of the dataframe at index 1 (the
second dataframe of a call). -/
def engFail1 : Engine := ⟨fun c => c.dfIdx == 1⟩

/-- An engine that fails exactly the chunk starting at row 2 of the dataframe
at index 1 (the second chunk of the second dataframe of a call). -/
def engFailLate : Engine := ⟨fun c => c.dfIdx == 1 && c.rowStart == 2⟩

/-- The chunks attempted by the chunk-write calls of a trace, in order (on an
error path the last one is the failing attempt). -/
def writtenChunks (evs : List Event) : List ChunkWrite :=
  evs.filterMap fun e =>
    match e with
    | Event.writeChunk c => some c
    | _ => none

/-- Persistent state seen by `write_dataframe_to_db`: the chunk writes that
are durable in the store.  pandas >= 2.0 (required by the source's SQLAlchemy
2.0 imports) wraps each `to_sql` call in its own transaction and commits it
on return whenever the connection has no open transaction — the case for
every chunk here — so there is no uncommitted write to carry between
chunks. -/
structure WriteState where
  durable : List ChunkWrite
deriving DecidableEq, Repr

/-- Session semantics for the write path: every chunk's transaction was
already committed (or rolled back) inside its `to_sql` call, so the
connection holds no open transaction and the handler's session-level
rollback and close leave the durable state unchanged. -/
def writeOps : ScopeOps WriteState :=
  { connectS := fun s => s,
    rollbackS := fun s => s,
    closeS := fun s => s }

/-- One `data_chunk.to_sql(...)` call (`src/DatabaseHandler.py`, lines
133-139): pandas begins a transaction for the call, writes the chunk, and
commits on return, so a successful chunk is durable at once; on an engine
failure pandas rolls its own transaction back and the error is raised with
the store unchanged. -/
def toSql (eng : Engine) (c : ChunkWrite) (s : WriteState) :
    Except DSError Unit × List Event × WriteState :=
  if eng.failsOn c then
    (Except.error (DSError.EngineError "chunk write failed"), [Event.writeChunk c], s)
  else
    (Except.ok (), [Event.writeChunk c], { s with durable := s.durable ++ [c] })

/-- The inner chunk loop of `write_dataframe_to_db` (lines 130-140): write
each chunk in order, and after each write returns, update the progress bar by
that chunk's row count. -/
def writeChunksLoop (eng : Engine) (table : String) (dfIdx total written : Nat)
    (ranges : List (Nat × Nat)) (s : WriteState) :
    Except DSError Unit × List Event × WriteState :=
  match ranges with
  | [] => (Except.ok (), [], s)
  | (a, b) :: rest =>
    match toSql eng ⟨table, dfIdx, a, b⟩ s with
    | (Except.error e, evs, s2) => (Except.error e, evs, s2)
    | (Except.ok _, evs, s2) =>
      let written2 := written + (b - a)
      match writeChunksLoop eng table dfIdx total written2 rest s2 with
      | (r, evs2, s3) =>
        (r, evs ++ Event.progressUpdate table written2 total :: evs2, s3)

/-- The outer dataframe loop of `write_dataframe_to_db` (lines 118-144): for
each dataframe in argument order, infer its column SQL types (raising on an
empty frame) and run the chunk loop. -/
def writeDfsLoop (eng : Engine) (table : String) (csize : Nat) :
    List DataFrame → Nat → WriteState → Except DSError Unit × List Event × WriteState
  | [], _, s => (Except.ok (), [], s)
  | df :: rest, dfIdx, s =>
    match infer_sql_types df with
    | Except.error e => (Except.error e, [], s)
    | Except.ok _ =>
      match writeChunksLoop eng table dfIdx df.nrows 0 (chunkRanges df.nrows csize) s with
      | (Except.error e, evs, s2) => (Except.error e, evs, s2)
      | (Except.ok _, evs, s2) =>
        match writeDfsLoop eng table csize rest (dfIdx + 1) s2 with
        | (r, evs2, s3) => (r, evs ++ evs2, s3)

/-- Python `str.lower()`, character by character (used for
`table_name.lower()` on line 115). -/
def strLower (s : String) : String := String.mk (s.data.map Char.toLower)

/-- `DatabaseHandler.write_dataframe_to_db` (`src/DatabaseHandler.py`, lines
106-144): lower-case the table name once, open a single session scope for the
whole call, and run the dataframe loop inside it. -/
def write_dataframe_to_db (eng : Engine) (table_name : String)
    (dataframes : List DataFrame) (csize : Nat) (s : WriteState) :
    Except DSError Unit × List Event × WriteState :=
  manage_session writeOps (writeDfsLoop eng (strLower table_name) csize dataframes 0) s

/-- Persistent state seen by the maintenance and query operations: the
durable tables (name to row list, rows abstracted to keys) and the working
view of the currently open transaction. -/
structure MaintState where
  durable : List (String × List Nat)
  pending : List (String × List Nat)
deriving DecidableEq, Repr

/-- Connection semantics for maintenance operations: a fresh connection sees
the durable state; rollback and close-without-commit discard the working
view. -/
def maintOps : ScopeOps MaintState :=
  { connectS := fun s => { s with pending := s.durable },
    rollbackS := fun s => { s with pending := s.durable },
    closeS := fun s => { s with pending := s.durable } }

/-- Rows of a table in a table list (absent tables read as empty). -/
def getRows (tbl : String) (ts : List (String × List Nat)) : List Nat :=
  (ts.lookup tbl).getD []

/-- Replace the rows of table `tbl`, inserting the table when absent. -/
def setTable (tbl : String) (rows : List Nat) :
    List (String × List Nat) → List (String × List Nat)
  | [] => [(tbl, rows)]
  | (k, v) :: rest =>
    if tbl = k then (k, rows) :: rest else (k, v) :: setTable tbl rows rest

/-- A `commit` on the session: the working view becomes durable. -/
def commitState (s : MaintState) : MaintState := { s with durable := s.pending }

/-- `DatabaseHandler.empty_table` (`src/DatabaseHandler.py`, lines 79-89):
execute `TRUNCATE TABLE schema.table_name` inside one session scope.  The
engine model treats `TRUNCATE` as auto-committing DDL (the Oracle dialect the
source imports), so the truncation is durable with no explicit commit. -/
def empty_table (schema table_name : String) (s : MaintState) :
    Except DSError Unit × List Event × MaintState :=
  manage_session maintOps
    (fun s1 =>
      (Except.ok (), [Event.executeTruncate schema table_name],
        { durable := setTable table_name [] s1.durable,
          pending := setTable table_name [] s1.pending }))
    s

/-- A SQLAlchemy `Delete` statement, abstracted to its target table and its
row predicate. -/
structure DeleteStmt where
  table : String
  pred : Nat → Bool

/-- `DatabaseHandler.delete_records` (`src/DatabaseHandler.py`, lines
91-104): inside one session scope, execute the delete statement (removing the
matching rows from the transaction's working view, with `rowcount` the number
removed), log the rowcount, and commit.  The Python function returns `None`. -/
def delete_records (stmt : DeleteStmt) (s : MaintState) :
    Except DSError Unit × List Event × MaintState :=
  manage_session maintOps
    (fun s1 =>
      let rows := getRows stmt.table s1.pending
      let remaining := rows.filter fun r => !stmt.pred r
      let s2 : MaintState := { s1 with pending := setTable stmt.table remaining s1.pending }
      (Except.ok (),
       [Event.executeDelete stmt.table,
        Event.logDeleted (rows.length - remaining.length),
        Event.commit],
       commitState s2))
    s

/-- The answer the engine returns for a read query: column names and rows
(cells abstracted to keys). -/
structure QueryResult where
  columns : List String
  rows : List (List Nat)
deriving DecidableEq, Repr

/-- `DatabaseHandler.execute_query` (`src/DatabaseHandler.py`, lines 64-77):
inside one session scope, execute the select, read the column names and fetch
all rows (both before the scope closes), and return them as an in-memory
tabular result. -/
def execute_query (answer : QueryResult) (s : MaintState) :
    Except DSError (List String × List (List Nat)) × List Event × MaintState :=
  manage_session maintOps
    (fun s1 =>
      (Except.ok (answer.columns, answer.rows),
       [Event.executeSelect, Event.fetchAll], s1))
    s

/-- Closed form of the event list produced by the chunk loop on a failure-free
engine: for each chunk, the write followed by one progress update carrying the
cumulative row count. -/
def chunkEvents (table : String) (dfIdx total : Nat) : Nat → List (Nat × Nat) → List Event
  | _, [] => []
  | written, (a, b) :: rest =>
      Event.writeChunk ⟨table, dfIdx, a, b⟩ ::
      Event.progressUpdate table (written + (b - a)) total ::
      chunkEvents table dfIdx total (written + (b - a)) rest

/-- Partial sums of a list starting from an initial count (the successive
values shown by the progress bar). -/
def psums : Nat → List Nat → List Nat
  | _, [] => []
  | w, n :: ns => (w + n) :: psums (w + n) ns

/-- The column classification asserted by the spec's mapping policy, amended
to the date/timestamp representations the source lookup table actually
recognizes (the timezone-naive `datetime64[ns]` and `timestamp[us][pyarrow]`;
timezone-aware representations fall through to the TEXT default): text/category
representations map to TEXT, 64-bit float and decimal-like to FLOAT, 64-bit
integer to NUMERIC, and anything unrecognized to TEXT. -/
def specColumnClass (d : String) : SqlType :=
  if d = "object" ∨ d = "category" ∨ d = "string[pyarrow]" then SqlType.String
  else if d = "float64" ∨ d = "double[pyarrow]" then SqlType.FLOAT
  else if d = "int64" then SqlType.NUMBER
  else if d = "datetime64[ns]" ∨ d = "timestamp[us][pyarrow]" then SqlType.DATE
  else SqlType.String

/-- Trivial engine-state semantics on a counter, used to exercise
`manage_session` at a concrete instance. -/
def opsW : ScopeOps Nat := ⟨fun s => s, fun s => s, fun s => s⟩

/-- A session body that performs one statement and then raises a driver
error, used to exercise the error path of `manage_session`. -/
def bodyW : Nat → Except DSError Unit × List Event × Nat :=
  fun n => (Except.error (DSError.EngineError "boom"), [Event.executeSelect], n)

theorem pyRangeAux_nil {f a b s : Nat} (h : ¬ a < b) : pyRangeAux f a b s = [] := by
  cases f with
  | zero => rfl
  | succ f => simp [pyRangeAux, h]

theorem pyRangeAux_cover (C : Nat) (hC : 0 < C) :
    ∀ (fuel start R : Nat), R - start ≤ fuel →
      ((pyRangeAux fuel start R C).flatMap fun s => List.range' s (min (s + C) R - s)) =
        List.range' start (R - start) := by
  intro fuel
  induction fuel with
  | zero =>
    intro start R h
    have h0 : R - start = 0 := by omega
    simp [pyRangeAux, h0]
  | succ f ih =>
    intro start R h
    by_cases hlt : start < R
    · rw [pyRangeAux]
      simp only [if_pos hlt]
      rw [List.flatMap_cons]
      by_cases hend : start + C ≤ R
      · rw [ih (start + C) R (by omega)]
        have hmin : min (start + C) R = start + C := by omega
        rw [hmin]
        have h1 : start + C - start = C := by omega
        rw [h1]
        have happ := List.range'_append start C (R - (start + C)) 1
        simp only [Nat.one_mul] at happ
        rw [happ]
        have h2 : R - (start + C) + C = R - start := by omega
        rw [h2]
      · rw [pyRangeAux_nil (show ¬ start + C < R by omega)]
        have hmin : min (start + C) R = R := by omega
        rw [hmin]
        simp
    · rw [pyRangeAux_nil hlt]
      have h0 : R - start = 0 := by omega
      simp [h0]

theorem pyRangeAux_mem {step : Nat} :
    ∀ {fuel start stop x : Nat}, x ∈ pyRangeAux fuel start stop step →
      start ≤ x ∧ x < stop := by
  intro fuel
  induction fuel with
  | zero => intro start stop x hx; simp [pyRangeAux] at hx
  | succ f ih =>
    intro start stop x hx
    rw [pyRangeAux] at hx
    by_cases hlt : start < stop
    · rw [if_pos hlt] at hx
      rcases List.mem_cons.mp hx with h | h
      · subst h; exact ⟨Nat.le_refl _, hlt⟩
      · have := ih h; omega
    · rw [if_neg hlt] at hx; simp at hx

theorem pyRangeAux_getLast (C : Nat) (hC : 0 < C) :
    ∀ (fuel start R : Nat), R - start ≤ fuel → start < R →
      ∃ k, (pyRangeAux fuel start R C).getLast? = some (start + C * k) ∧
        start + C * k < R ∧ R ≤ start + C * k + C := by
  intro fuel
  induction fuel with
  | zero => intro start R h hlt; omega
  | succ f ih =>
    intro start R h hlt
    rw [pyRangeAux]
    simp only [if_pos hlt]
    by_cases hend : start + C < R
    · obtain ⟨k, hk1, hk2, hk3⟩ := ih (start + C) R (by omega) hend
      refine ⟨k + 1, ?_, ?_, ?_⟩
      · rcases hrest : pyRangeAux f (start + C) R C with _ | ⟨y, t⟩
        · rw [hrest] at hk1; simp at hk1
        · rw [hrest] at hk1
          rw [List.getLast?_cons_cons, hk1]
          have heq : start + C + C * k = start + C * (k + 1) := by
            rw [Nat.mul_succ]; omega
          rw [heq]
      · rw [Nat.mul_succ]; omega
      · rw [Nat.mul_succ]; omega
    · rw [pyRangeAux_nil (show ¬ start + C < R by omega)]
      exact ⟨0, by simp, by omega, by omega⟩

theorem pyRangeAux_head {fuel start stop step : Nat} (hf : 0 < fuel) (h : start < stop) :
    (pyRangeAux fuel start stop step).head? = some start := by
  cases fuel with
  | zero => omega
  | succ f => simp [pyRangeAux, h]

theorem pyRangeAux_chain (step : Nat) :
    ∀ (fuel start stop : Nat),
      List.Chain' (fun a b => b = a + step) (pyRangeAux fuel start stop step) := by
  intro fuel
  induction fuel with
  | zero => intro start stop; simp [pyRangeAux]
  | succ f ih =>
    intro start stop
    rw [pyRangeAux]
    by_cases h : start < stop
    · rw [if_pos h]
      rw [List.chain'_cons']
      refine ⟨?_, ih (start + step) stop⟩
      intro y hy
      cases f with
      | zero => simp [pyRangeAux] at hy
      | succ f2 =>
        rw [pyRangeAux] at hy
        by_cases h2 : start + step < stop
        · rw [if_pos h2] at hy; simp at hy; omega
        · rw [if_neg h2] at hy; simp at hy
    · rw [if_neg h]; simp

theorem last_chunk_len (R C k : Nat) (hC : 0 < C) (h1 : C * k < R) (h2 : R ≤ C * k + C) :
    R - C * k = if R % C = 0 then C else R % C := by
  have hd : R = (R - C * k) + C * k := by omega
  have hmod : R % C = (R - C * k) % C := by
    conv_lhs => rw [hd]
    exact Nat.add_mul_mod_self_left _ C k
  by_cases hdc : R - C * k = C
  · have h0 : R % C = 0 := by rw [hmod, hdc, Nat.mod_self]
    rw [if_pos h0]
    exact hdc
  · have hlt : R - C * k < C := by omega
    have hsmall : (R - C * k) % C = R - C * k := Nat.mod_eq_of_lt hlt
    have hne : R % C ≠ 0 := by rw [hmod, hsmall]; omega
    rw [if_neg hne, hmod, hsmall]

theorem pyRangeStep_eq (R C : Nat) (hC : 0 < C) :
    pyRangeStep 0 R C = pyRangeAux R 0 R C := by
  have hC0 : ¬ C = 0 := by omega
  simp [pyRangeStep, hC0]

/-- Claim C7 (confirmed): for every row count R > 0 and chunk size C > 0, the
chunks produced by the writer start at 0, advance by C, each chunk is the
half-open range from its start to `min (start + C) R`, together they cover
`[0, R)` exactly once each in ascending order, and the last chunk's length is
`R mod C` when nonzero, else `C`. -/
theorem chunk_coverage (R C : Nat) (hR : 0 < R) (hC : 0 < C) :
    ((chunkRanges R C).flatMap fun p => List.range' p.1 (p.2 - p.1)) = List.range R ∧
    ((chunkRanges R C).map Prod.fst).head? = some 0 ∧
    List.Chain' (fun a b => b = a + C) ((chunkRanges R C).map Prod.fst) ∧
    (∀ p ∈ chunkRanges R C, p.2 = min (p.1 + C) R) ∧
    ((chunkRanges R C).getLast?.map fun p => p.2 - p.1) =
      some (if R % C = 0 then C else R % C) := by
  have hfst : (chunkRanges R C).map Prod.fst = pyRangeStep 0 R C := by
    rw [chunkRanges, List.map_map]
    have hid : (Prod.fst ∘ fun s : Nat => (s, min (s + C) R)) = id := rfl
    rw [hid, List.map_id]
  refine ⟨?_, ?_, ?_, ?_, ?_⟩
  · rw [List.range_eq_range' R]
    have hcov := pyRangeAux_cover C hC R 0 R (by omega)
    simp only [Nat.sub_zero] at hcov
    rw [chunkRanges, pyRangeStep_eq R C hC, List.flatMap_map]
    simpa [Function.comp] using hcov
  · rw [hfst, pyRangeStep_eq R C hC]
    exact pyRangeAux_head (by omega) hR
  · rw [hfst, pyRangeStep_eq R C hC]
    exact pyRangeAux_chain C R 0 R
  · intro p hp
    rw [chunkRanges] at hp
    obtain ⟨s, _, rfl⟩ := List.mem_map.mp hp
    rfl
  · rw [chunkRanges, List.getLast?_map, pyRangeStep_eq R C hC]
    obtain ⟨k, hk1, hk2, hk3⟩ := pyRangeAux_getLast C hC R 0 R (by omega) hR
    simp only [Nat.zero_add] at hk1 hk2 hk3
    rw [hk1]
    simp only [Option.map_some']
    have hmin : min (C * k + C) R = R := by omega
    rw [hmin]
    rw [last_chunk_len R C k hC hk2 hk3]

/-- Witness for `chunk_coverage` at R = 5, C = 2. -/
theorem chunk_coverage_witness :
    ((chunkRanges 5 2).flatMap fun p => List.range' p.1 (p.2 - p.1)) = List.range 5 ∧
    ((chunkRanges 5 2).map Prod.fst).head? = some 0 ∧
    List.Chain' (fun a b => b = a + 2) ((chunkRanges 5 2).map Prod.fst) ∧
    (∀ p ∈ chunkRanges 5 2, p.2 = min (p.1 + 2) 5) ∧
    ((chunkRanges 5 2).getLast?.map fun p => p.2 - p.1) =
      some (if 5 % 2 = 0 then 2 else 5 % 2) :=
  chunk_coverage 5 2 (by decide) (by decide)

theorem trace_last_concat (l : List Event) :
    (l ++ [Event.close]).getLast? = some Event.close := List.getLast?_concat l

/-- Claim C2 (confirmed): for every operation run inside the session scope,
the connection is closed on every exit path (the trace always ends with
`close`); the operation's outcome is returned unchanged, never swallowed or
wrapped; and when the operation raises, the scope first issues a rollback
(immediately after the operation's own events) and then re-raises the error,
while on success no rollback is issued. -/
theorem manage_session_spec {σ α : Type} (ops : ScopeOps σ)
    (body : σ → Except DSError α × List Event × σ) (s : σ) :
    (manage_session ops body s).2.1.getLast? = some Event.close ∧
    (manage_session ops body s).1 = (body (ops.connectS s)).1 ∧
    (∀ e, (body (ops.connectS s)).1 = Except.error e →
      (manage_session ops body s).2.1 =
        Event.connect :: (body (ops.connectS s)).2.1 ++ [Event.rollback, Event.close]) ∧
    (∀ a, (body (ops.connectS s)).1 = Except.ok a →
      (manage_session ops body s).2.1 =
        Event.connect :: (body (ops.connectS s)).2.1 ++ [Event.close]) := by
  rcases hb : body (ops.connectS s) with ⟨r, evs, s2⟩
  cases r with
  | ok a =>
    refine ⟨?_, ?_, ?_, ?_⟩
    · simp only [manage_session, hb]
      have hsplit : Event.connect :: evs ++ [Event.close] =
          (Event.connect :: evs) ++ [Event.close] := rfl
      rw [hsplit]
      exact trace_last_concat _
    · simp [manage_session, hb]
    · intro e he
      simp at he
    · intro a2 _
      simp [manage_session, hb]
  | error e =>
    refine ⟨?_, ?_, ?_, ?_⟩
    · simp only [manage_session, hb]
      have hsplit : Event.connect :: evs ++ [Event.rollback, Event.close] =
          (Event.connect :: (evs ++ [Event.rollback])) ++ [Event.close] := by simp
      rw [hsplit]
      exact trace_last_concat _
    · simp [manage_session, hb]
    · intro e2 _
      simp [manage_session, hb]
    · intro a ha
      simp at ha

/-- Witness for `manage_session_spec` on the error path: the trace is
connect, the body's statement, rollback, close, in that order. -/
theorem manage_session_spec_witness :
    (manage_session opsW bodyW 0).2.1.getLast? = some Event.close ∧
    (manage_session opsW bodyW 0).2.1 =
      [Event.connect, Event.executeSelect, Event.rollback, Event.close] := by
  have h := manage_session_spec opsW bodyW 0
  refine ⟨h.1, ?_⟩
  have h3 := h.2.2.1 (DSError.EngineError "boom") rfl
  simpa using h3

theorem writeChunksLoop_noFail (eng : Engine) (h : ∀ c, eng.failsOn c = false)
    (t : String) (i tot : Nat) :
    ∀ (rs : List (Nat × Nat)) (w : Nat) (s : WriteState),
      writeChunksLoop eng t i tot w rs s =
        (Except.ok (), chunkEvents t i tot w rs,
         { s with durable := s.durable ++ rs.map fun p => ⟨t, i, p.1, p.2⟩ }) := by
  intro rs
  induction rs with
  | nil => intro w s; simp [writeChunksLoop, chunkEvents]
  | cons p rest ih =>
    intro w s
    rcases p with ⟨a, b⟩
    rw [writeChunksLoop]
    simp only [toSql, h ⟨t, i, a, b⟩, Bool.false_eq_true, if_false]
    rw [ih (w + (b - a)) { s with durable := s.durable ++ [⟨t, i, a, b⟩] }]
    simp [chunkEvents]

theorem progressValues_chunkEvents (t : String) (i tot : Nat) :
    ∀ (rs : List (Nat × Nat)) (w : Nat),
      progressValues (chunkEvents t i tot w rs) = psums w (rs.map fun p => p.2 - p.1) := by
  intro rs
  induction rs with
  | nil => intro w; simp [chunkEvents, progressValues, psums]
  | cons p rest ih =>
    intro w
    rcases p with ⟨a, b⟩
    simp only [chunkEvents, progressValues, List.filterMap_cons]
    rw [← progressValues, ih (w + (b - a))]
    simp [psums]

theorem psums_head (w n : Nat) (t : List Nat) :
    (psums w (n :: t)).head? = some (w + n) := rfl

theorem psums_chain :
    ∀ (ls : List Nat) (w : Nat), (∀ n ∈ ls, 0 < n) →
      List.Chain' (fun a b => a < b) (psums w ls)
  | [], _, _ => by simp [psums]
  | n :: t, w, h => by
    rw [show psums w (n :: t) = (w + n) :: psums (w + n) t from rfl]
    rw [List.chain'_cons']
    refine ⟨?_, psums_chain t (w + n) fun x hx => h x (List.mem_cons_of_mem n hx)⟩
    intro y hy
    cases t with
    | nil => simp [psums] at hy
    | cons m t2 =>
      rw [psums_head] at hy
      have hm : 0 < m := h m (by simp)
      simp at hy
      omega

theorem psums_getLast :
    ∀ (ls : List Nat) (w : Nat), ls ≠ [] →
      (psums w ls).getLast? = some (w + ls.sum)
  | [], _, h => absurd rfl h
  | [n], w, _ => by simp [psums]
  | n :: m :: t, w, _ => by
    rw [show psums w (n :: m :: t) = (w + n) :: psums (w + n) (m :: t) from rfl]
    rcases hps : psums (w + n) (m :: t) with _ | ⟨y, t2⟩
    · simp [psums] at hps
    · have ih := psums_getLast (m :: t) (w + n) (by simp)
      rw [hps] at ih
      rw [List.getLast?_cons_cons, ih]
      have : w + n + (m :: t).sum = w + (n :: m :: t).sum := by
        simp [List.sum_cons]
        omega
      rw [this]

theorem psums_length : ∀ (ls : List Nat) (w : Nat), (psums w ls).length = ls.length
  | [], _ => rfl
  | _ :: t, w => by simp [psums, psums_length t]

theorem pyRangeAux_lens_sum (C : Nat) (hC : 0 < C) :
    ∀ (fuel start R : Nat), R - start ≤ fuel →
      (((pyRangeAux fuel start R C).map fun s => min (s + C) R - s)).sum = R - start := by
  intro fuel
  induction fuel with
  | zero => intro start R h; rw [pyRangeAux]; simp; omega
  | succ f ih =>
    intro start R h
    by_cases hlt : start < R
    · rw [pyRangeAux]
      simp only [if_pos hlt, List.map_cons, List.sum_cons]
      rw [ih (start + C) R (by omega)]
      omega
    · rw [pyRangeAux_nil hlt]
      simp
      omega

theorem chunkRanges_lens_sum (R C : Nat) (hC : 0 < C) :
    ((chunkRanges R C).map fun p => p.2 - p.1).sum = R := by
  rw [chunkRanges, List.map_map]
  have hfn : ((fun p : Nat × Nat => p.2 - p.1) ∘ fun s => (s, min (s + C) R)) =
      fun s => min (s + C) R - s := rfl
  rw [hfn, pyRangeStep_eq R C hC]
  have := pyRangeAux_lens_sum C hC R 0 R (by omega)
  simpa using this

theorem chunkRanges_pos (R C : Nat) (hC : 0 < C) :
    ∀ p ∈ chunkRanges R C, 0 < p.2 - p.1 := by
  intro p hp
  rw [chunkRanges, pyRangeStep_eq R C hC] at hp
  obtain ⟨s, hs, rfl⟩ := List.mem_map.mp hp
  have := pyRangeAux_mem hs
  simp only
  omega

theorem chunkRanges_ne_nil (R C : Nat) (hR : 0 < R) (hC : 0 < C) :
    chunkRanges R C ≠ [] := by
  rw [chunkRanges, pyRangeStep_eq R C hC]
  cases R with
  | zero => omega
  | succ n =>
    rw [pyRangeAux]
    simp

theorem chunkEvents_filter (t : String) (i tot : Nat) :
    ∀ (rs : List (Nat × Nat)) (w : Nat),
      (chunkEvents t i tot w rs).filter isWriteOrProgress = chunkEvents t i tot w rs := by
  intro rs
  induction rs with
  | nil => intro w; simp [chunkEvents]
  | cons p rest ih =>
    intro w
    rcases p with ⟨a, b⟩
    simp [chunkEvents, isWriteOrProgress, List.filter, ih (w + (b - a))]

theorem chunkEvents_shape (t : String) (i tot : Nat) :
    ∀ (rs : List (Nat × Nat)) (w : Nat),
      chunksThenProgress (chunkEvents t i tot w rs) = true := by
  intro rs
  induction rs with
  | nil => intro w; simp [chunkEvents, chunksThenProgress]
  | cons p rest ih =>
    intro w
    rcases p with ⟨a, b⟩
    simp [chunkEvents, chunksThenProgress, ih (w + (b - a))]

theorem progressValues_wrap (ce : List Event) :
    progressValues (Event.connect :: ce ++ [Event.close]) = progressValues ce := by
  simp [progressValues]

theorem write_ok_trace (R C : Nat) (hR : 0 < R) :
    (write_dataframe_to_db engOk "T" [⟨[("a", "int64")], R⟩] C ⟨[]⟩).2.1 =
      Event.connect :: chunkEvents "t" 0 R 0 (chunkRanges R C) ++ [Event.close] := by
  have hne : ((⟨[("a", "int64")], R⟩ : DataFrame).empty) = false := by
    simp [DataFrame.empty]
    omega
  have hinfer : infer_sql_types ⟨[("a", "int64")], R⟩ =
      Except.ok [("a", SqlType.NUMBER)] := by
    rw [infer_sql_types, hne]
    rfl
  have hok : ∀ c, engOk.failsOn c = false := fun _ => rfl
  have hlow : strLower "T" = "t" := rfl
  have hbody : writeDfsLoop engOk "t" C [⟨[("a", "int64")], R⟩] 0 ⟨[]⟩ =
      (Except.ok (), chunkEvents "t" 0 R 0 (chunkRanges R C),
        ⟨(chunkRanges R C).map fun p => ⟨"t", 0, p.1, p.2⟩⟩) := by
    simp [writeDfsLoop, hinfer, writeChunksLoop_noFail engOk hok]
  rw [write_dataframe_to_db, hlow]
  simp [manage_session, writeOps, hbody]

/-- Claim C8 (confirmed): during a single Dataset write of R rows with chunk
size C (on an engine where every chunk write succeeds), the filtered trace
alternates strictly as (chunk write, one progress observation)*, with one
progress observation per chunk; the reported rowsWritten values are strictly
increasing; and the final reported value is R. -/
theorem progress_spec (R C : Nat) (hR : 0 < R) (hC : 0 < C) :
    List.Chain' (fun a b => a < b)
      (progressValues (write_dataframe_to_db engOk "T" [⟨[("a", "int64")], R⟩] C
        ⟨[]⟩).2.1) ∧
    (progressValues (write_dataframe_to_db engOk "T" [⟨[("a", "int64")], R⟩] C
        ⟨[]⟩).2.1).getLast? = some R ∧
    (progressValues (write_dataframe_to_db engOk "T" [⟨[("a", "int64")], R⟩] C
        ⟨[]⟩).2.1).length = (chunkRanges R C).length ∧
    chunksThenProgress ((write_dataframe_to_db engOk "T" [⟨[("a", "int64")], R⟩] C
        ⟨[]⟩).2.1.filter isWriteOrProgress) = true := by
  rw [write_ok_trace R C hR, progressValues_wrap,
    progressValues_chunkEvents "t" 0 R (chunkRanges R C) 0]
  have hpos : ∀ n ∈ (chunkRanges R C).map fun p => p.2 - p.1, 0 < n := by
    intro n hn
    obtain ⟨p, hp, rfl⟩ := List.mem_map.mp hn
    exact chunkRanges_pos R C hC p hp
  refine ⟨psums_chain _ 0 hpos, ?_, ?_, ?_⟩
  · rw [psums_getLast _ 0 (by
      intro hnil
      exact chunkRanges_ne_nil R C hR hC (List.map_eq_nil_iff.mp hnil))]
    rw [chunkRanges_lens_sum R C hC]
    simp
  · rw [psums_length, List.length_map]
  · rw [show (Event.connect :: chunkEvents "t" 0 R 0 (chunkRanges R C) ++
        [Event.close]).filter isWriteOrProgress =
        chunkEvents "t" 0 R 0 (chunkRanges R C) from ?_]
    · exact chunkEvents_shape "t" 0 R (chunkRanges R C) 0
    · simp [List.filter_cons, List.filter_append, isWriteOrProgress, chunkEvents_filter]

/-- Witness for `progress_spec` at R = 5, C = 2 (progress values 2, 4, 5). -/
theorem progress_spec_witness :
    List.Chain' (fun a b => a < b)
      (progressValues (write_dataframe_to_db engOk "T" [⟨[("a", "int64")], 5⟩] 2
        ⟨[]⟩).2.1) ∧
    (progressValues (write_dataframe_to_db engOk "T" [⟨[("a", "int64")], 5⟩] 2
        ⟨[]⟩).2.1).getLast? = some 5 ∧
    (progressValues (write_dataframe_to_db engOk "T" [⟨[("a", "int64")], 5⟩] 2
        ⟨[]⟩).2.1).length = (chunkRanges 5 2).length ∧
    chunksThenProgress ((write_dataframe_to_db engOk "T" [⟨[("a", "int64")], 5⟩] 2
        ⟨[]⟩).2.1.filter isWriteOrProgress) = true :=
  progress_spec 5 2 (by decide) (by decide)

theorem manage_session_ok {σ α : Type} (ops : ScopeOps σ)
    (body : σ → Except DSError α × List Event × σ) (s : σ) (a : α)
    (evs : List Event) (s2 : σ) (hb : body (ops.connectS s) = (Except.ok a, evs, s2)) :
    manage_session ops body s =
      (Except.ok a, Event.connect :: evs ++ [Event.close], ops.closeS s2) := by
  rw [manage_session, hb]

theorem manage_session_error {σ α : Type} (ops : ScopeOps σ)
    (body : σ → Except DSError α × List Event × σ) (s : σ) (e : DSError)
    (evs : List Event) (s2 : σ) (hb : body (ops.connectS s) = (Except.error e, evs, s2)) :
    manage_session ops body s =
      (Except.error e, Event.connect :: evs ++ [Event.rollback, Event.close],
        ops.closeS (ops.rollbackS s2)) := by
  rw [manage_session, hb]

theorem writtenChunks_nil : writtenChunks [] = [] := rfl

theorem writtenChunks_cons_write (c : ChunkWrite) (evs : List Event) :
    writtenChunks (Event.writeChunk c :: evs) = c :: writtenChunks evs := rfl

theorem writtenChunks_cons_progress (t : String) (n m : Nat) (evs : List Event) :
    writtenChunks (Event.progressUpdate t n m :: evs) = writtenChunks evs := rfl

theorem writtenChunks_append (l1 l2 : List Event) :
    writtenChunks (l1 ++ l2) = writtenChunks l1 ++ writtenChunks l2 := by
  simp [writtenChunks]

theorem writtenChunks_wrap_ok (evs : List Event) :
    writtenChunks (Event.connect :: evs ++ [Event.close]) = writtenChunks evs := by
  simp [writtenChunks]

theorem writtenChunks_wrap_error (evs : List Event) :
    writtenChunks (Event.connect :: evs ++ [Event.rollback, Event.close]) =
      writtenChunks evs := by
  simp [writtenChunks]

theorem infer_sql_types_error (df : DataFrame) (e : DSError)
    (h : infer_sql_types df = Except.error e) :
    e = DSError.EmptyDataFrameError "DataFrame is empty." := by
  rw [infer_sql_types] at h
  by_cases hemp : df.empty = true
  · rw [hemp] at h
    simp at h
    exact h.symm
  · simp [hemp] at h

theorem writeChunksLoop_spec (eng : Engine) (t : String) (i tot : Nat) :
    ∀ (rs : List (Nat × Nat)) (w : Nat) (s : WriteState),
      (∀ ev ∈ (writeChunksLoop eng t i tot w rs s).2.1, isWriteOrProgress ev = true) ∧
      (∀ u, (writeChunksLoop eng t i tot w rs s).1 = Except.ok u →
        (writeChunksLoop eng t i tot w rs s).2.2.durable =
          s.durable ++ writtenChunks (writeChunksLoop eng t i tot w rs s).2.1) ∧
      (∀ e, (writeChunksLoop eng t i tot w rs s).1 = Except.error e →
        e = DSError.EngineError "chunk write failed" ∧
        writtenChunks (writeChunksLoop eng t i tot w rs s).2.1 ≠ [] ∧
        (writeChunksLoop eng t i tot w rs s).2.2.durable =
          s.durable ++
            (writtenChunks (writeChunksLoop eng t i tot w rs s).2.1).dropLast) := by
  intro rs
  induction rs with
  | nil =>
    intro w s
    refine ⟨by simp [writeChunksLoop], ?_, ?_⟩
    · intro u _
      simp [writeChunksLoop, writtenChunks]
    · intro e he
      simp [writeChunksLoop] at he
  | cons p rest ih =>
    intro w s
    rcases p with ⟨a, b⟩
    rw [writeChunksLoop]
    by_cases hf : eng.failsOn ⟨t, i, a, b⟩ = true
    · simp only [toSql, hf, if_true]
      refine ⟨?_, ?_, ?_⟩
      · intro ev hev
        simp at hev
        subst hev
        rfl
      · intro u hu
        simp at hu
      · intro e he
        simp at he
        refine ⟨he.symm, by simp [writtenChunks], by simp [writtenChunks]⟩
    · simp only [toSql, hf, if_false, Bool.false_eq_true]
      rcases hrec : writeChunksLoop eng t i tot (w + (b - a)) rest
          { s with durable := s.durable ++ [⟨t, i, a, b⟩] } with ⟨r2, evs2, s3⟩
      have ihr := ih (w + (b - a)) { s with durable := s.durable ++ [⟨t, i, a, b⟩] }
      rw [hrec] at ihr
      refine ⟨?_, ?_, ?_⟩
      · intro ev hev
        simp at hev
        rcases hev with h | h | h
        · subst h; rfl
        · subst h; rfl
        · exact ihr.1 ev h
      · intro u hu
        have hd := ihr.2.1 u hu
        dsimp only at hd
        simp only [List.singleton_append, writtenChunks_cons_write,
          writtenChunks_cons_progress]
        rw [hd]
        simp
      · intro e he
        obtain ⟨hee, hne, hd⟩ := ihr.2.2 e he
        dsimp only at hd hne
        refine ⟨hee, ?_, ?_⟩
        · simp only [List.singleton_append, writtenChunks_cons_write]
          simp
        · simp only [List.singleton_append, writtenChunks_cons_write,
            writtenChunks_cons_progress]
          rw [List.dropLast_cons_of_ne_nil hne, hd]
          simp

theorem writeDfsLoop_spec (eng : Engine) (t : String) (csize : Nat) :
    ∀ (dfs : List DataFrame) (i : Nat) (s : WriteState),
      (∀ ev ∈ (writeDfsLoop eng t csize dfs i s).2.1, isWriteOrProgress ev = true) ∧
      (∀ u, (writeDfsLoop eng t csize dfs i s).1 = Except.ok u →
        (writeDfsLoop eng t csize dfs i s).2.2.durable =
          s.durable ++ writtenChunks (writeDfsLoop eng t csize dfs i s).2.1) ∧
      (∀ m, (writeDfsLoop eng t csize dfs i s).1 =
          Except.error (DSError.EngineError m) →
        writtenChunks (writeDfsLoop eng t csize dfs i s).2.1 ≠ [] ∧
        (writeDfsLoop eng t csize dfs i s).2.2.durable =
          s.durable ++
            (writtenChunks (writeDfsLoop eng t csize dfs i s).2.1).dropLast) ∧
      (∀ m, (writeDfsLoop eng t csize dfs i s).1 =
          Except.error (DSError.EmptyDataFrameError m) →
        (writeDfsLoop eng t csize dfs i s).2.2.durable =
          s.durable ++ writtenChunks (writeDfsLoop eng t csize dfs i s).2.1) := by
  intro dfs
  induction dfs with
  | nil =>
    intro i s
    refine ⟨by simp [writeDfsLoop], ?_, ?_, ?_⟩
    · intro u _
      simp [writeDfsLoop, writtenChunks]
    · intro m hm
      simp [writeDfsLoop] at hm
    · intro m hm
      simp [writeDfsLoop] at hm
  | cons df rest ih =>
    intro i s
    rw [writeDfsLoop]
    rcases hinf : infer_sql_types df with e | ty
    · have hee := infer_sql_types_error df e hinf
      dsimp only
      refine ⟨by simp, ?_, ?_, ?_⟩
      · intro u hu
        simp at hu
      · intro m hm
        simp at hm
        rw [hee] at hm
        simp at hm
      · intro m _
        simp [writtenChunks]
    · rcases hcl : writeChunksLoop eng t i df.nrows 0 (chunkRanges df.nrows csize) s
          with ⟨r1, evs1, s2⟩
      have hclp := writeChunksLoop_spec eng t i df.nrows (chunkRanges df.nrows csize) 0 s
      rw [hcl] at hclp
      cases r1 with
      | error e =>
        dsimp only
        obtain ⟨hee, hne, hd⟩ := hclp.2.2 e rfl
        refine ⟨fun ev hev => hclp.1 ev hev, ?_, ?_, ?_⟩
        · intro u hu
          simp at hu
        · intro m _
          exact ⟨hne, hd⟩
        · intro m hm
          simp at hm
          rw [hee] at hm
          simp at hm
      | ok u =>
        dsimp only
        rcases hrec : writeDfsLoop eng t csize rest (i + 1) s2 with ⟨r2, evs2, s3⟩
        have ihr := ih (i + 1) s2
        rw [hrec] at ihr
        dsimp only
        have hw1 : s2.durable = s.durable ++ writtenChunks evs1 := hclp.2.1 u rfl
        refine ⟨?_, ?_, ?_, ?_⟩
        · intro ev hev
          simp at hev
          rcases hev with h | h
          · exact hclp.1 ev h
          · exact ihr.1 ev h
        · intro u2 hu2
          have hd2 : s3.durable = s2.durable ++ writtenChunks evs2 := ihr.2.1 u2 hu2
          rw [writtenChunks_append, hd2, hw1]
          simp
        · intro m hm
          obtain ⟨w2ne, hd2⟩ := ihr.2.2.1 m hm
          have hd2s : s3.durable = s2.durable ++ (writtenChunks evs2).dropLast := hd2
          have w2ne2 : writtenChunks evs2 ≠ [] := w2ne
          constructor
          · rw [writtenChunks_append]
            intro h0
            rw [List.append_eq_nil] at h0
            exact w2ne2 h0.2
          · rw [writtenChunks_append, List.dropLast_append_of_ne_nil _ w2ne2, hd2s, hw1]
            simp
        · intro m hm
          have hd2 : s3.durable = s2.durable ++ writtenChunks evs2 := ihr.2.2.2 m hm
          rw [writtenChunks_append, hd2, hw1]
          simp

theorem write_trace_cases (eng : Engine) (tn : String) (dfs : List DataFrame)
    (csize : Nat) (s : WriteState) :
    ∃ evs, (∀ ev ∈ evs, isWriteOrProgress ev = true) ∧
      (((∃ u, (write_dataframe_to_db eng tn dfs csize s).1 = Except.ok u) ∧
        (write_dataframe_to_db eng tn dfs csize s).2.1 =
          Event.connect :: evs ++ [Event.close] ∧
        (write_dataframe_to_db eng tn dfs csize s).2.2.durable =
          s.durable ++ writtenChunks evs) ∨
       ((∃ e, (write_dataframe_to_db eng tn dfs csize s).1 = Except.error e) ∧
        (write_dataframe_to_db eng tn dfs csize s).2.1 =
          Event.connect :: evs ++ [Event.rollback, Event.close] ∧
        (∀ m, (write_dataframe_to_db eng tn dfs csize s).1 =
            Except.error (DSError.EngineError m) →
          (write_dataframe_to_db eng tn dfs csize s).2.2.durable =
            s.durable ++ (writtenChunks evs).dropLast) ∧
        (∀ m, (write_dataframe_to_db eng tn dfs csize s).1 =
            Except.error (DSError.EmptyDataFrameError m) →
          (write_dataframe_to_db eng tn dfs csize s).2.2.durable =
            s.durable ++ writtenChunks evs))) := by
  have h := writeDfsLoop_spec eng (strLower tn) csize dfs 0 s
  rw [write_dataframe_to_db]
  rcases hb : writeDfsLoop eng (strLower tn) csize dfs 0 s with ⟨r, evs, s2⟩
  rw [hb] at h
  refine ⟨evs, h.1, ?_⟩
  cases r with
  | ok u =>
    have hm := manage_session_ok writeOps (writeDfsLoop eng (strLower tn) csize dfs 0)
      s u evs s2 hb
    rw [hm]
    exact Or.inl ⟨⟨u, rfl⟩, rfl, h.2.1 u rfl⟩
  | error e =>
    have hm := manage_session_error writeOps (writeDfsLoop eng (strLower tn) csize dfs 0)
      s e evs s2 hb
    rw [hm]
    refine Or.inr ⟨⟨e, rfl⟩, rfl, ?_, ?_⟩
    · intro m hmm
      have hem : e = DSError.EngineError m := by simpa using hmm
      exact (h.2.2.1 m (by rw [hem])).2
    · intro m hmm
      have hem : e = DSError.EmptyDataFrameError m := by simpa using hmm
      exact h.2.2.2 m (by rw [hem])

theorem writeOrProgress_sessionOp (ev : Event) (h1 : isWriteOrProgress ev = true)
    (h2 : isSessionOp ev = true) : ∃ c, ev = Event.writeChunk c := by
  cases ev with
  | writeChunk c => exact ⟨c, rfl⟩
  | progressUpdate t n m => simp [isSessionOp] at h2
  | _ => simp [isWriteOrProgress] at h1

/-- Claim C1 (corrected): all Datasets of one `write_dataframe_to_db` call
share a single session — exactly one connect, and the handler itself never
issues a commit on it — while each chunk's write call commits its own
transaction internally (pandas wraps every `to_sql` on a connection with no
open transaction in a begin/commit of its own), so the transaction boundary
is the chunk, not the Dataset: on success every attempted chunk is durable,
and when a chunk write raises, only that failing chunk is discarded — the
already-written chunks of the failing Dataset and all earlier Datasets
remain durable — and the error propagates to the caller. -/
theorem write_per_chunk_commits (eng : Engine) (tn : String)
    (dfs : List DataFrame) (csize : Nat) (s : WriteState) :
    (write_dataframe_to_db eng tn dfs csize s).2.1.count Event.connect = 1 ∧
    Event.commit ∉ (write_dataframe_to_db eng tn dfs csize s).2.1 ∧
    (∀ u, (write_dataframe_to_db eng tn dfs csize s).1 = Except.ok u →
      (write_dataframe_to_db eng tn dfs csize s).2.2.durable =
        s.durable ++ writtenChunks (write_dataframe_to_db eng tn dfs csize s).2.1) ∧
    (∀ m, (write_dataframe_to_db eng tn dfs csize s).1 =
        Except.error (DSError.EngineError m) →
      (write_dataframe_to_db eng tn dfs csize s).2.2.durable =
        s.durable ++
          (writtenChunks (write_dataframe_to_db eng tn dfs csize s).2.1).dropLast) := by
  obtain ⟨evs, hall, hcases⟩ := write_trace_cases eng tn dfs csize s
  have hconn : Event.connect ∉ evs := by
    intro hmem
    have := hall Event.connect hmem
    simp [isWriteOrProgress] at this
  have hcomm : Event.commit ∉ evs := by
    intro hmem
    have := hall Event.commit hmem
    simp [isWriteOrProgress] at this
  rcases hcases with ⟨hok, htr, hdur⟩ | ⟨herr, htr, hdurE, hdurD⟩
  · refine ⟨?_, ?_, ?_, ?_⟩
    · rw [htr]
      simp [List.count_cons, List.count_append, List.count_eq_zero.mpr hconn]
    · rw [htr]
      intro hmem
      simp at hmem
      exact hcomm hmem
    · intro u _
      rw [htr, writtenChunks_wrap_ok]
      exact hdur
    · intro m hm
      obtain ⟨u, hu⟩ := hok
      rw [hu] at hm
      simp at hm
  · refine ⟨?_, ?_, ?_, ?_⟩
    · rw [htr]
      simp [List.count_cons, List.count_append, List.count_eq_zero.mpr hconn]
    · rw [htr]
      intro hmem
      simp at hmem
      exact hcomm hmem
    · intro u hu
      obtain ⟨e, he⟩ := herr
      rw [hu] at he
      simp at he
    · intro m hm
      rw [htr, writtenChunks_wrap_error]
      exact hdurE m hm

/-- Witness for `write_per_chunk_commits` on the error path: a failure at the
second chunk of the second dataframe leaves the durable state equal to the
attempted chunks minus the failing last one. -/
theorem write_per_chunk_commits_witness :
    (write_dataframe_to_db engFailLate "t" [⟨[("a", "int64")], 3⟩, ⟨[("b", "int64")], 3⟩]
      2 ⟨[]⟩).2.1.count Event.connect = 1 ∧
    (write_dataframe_to_db engFailLate "t" [⟨[("a", "int64")], 3⟩, ⟨[("b", "int64")], 3⟩]
      2 ⟨[]⟩).2.2.durable =
      ([] : List ChunkWrite) ++
        (writtenChunks (write_dataframe_to_db engFailLate "t"
          [⟨[("a", "int64")], 3⟩, ⟨[("b", "int64")], 3⟩] 2 ⟨[]⟩).2.1).dropLast :=
  ⟨(write_per_chunk_commits engFailLate "t"
      [⟨[("a", "int64")], 3⟩, ⟨[("b", "int64")], 3⟩] 2 ⟨[]⟩).1,
   (write_per_chunk_commits engFailLate "t"
      [⟨[("a", "int64")], 3⟩, ⟨[("b", "int64")], 3⟩] 2 ⟨[]⟩).2.2.2
      "chunk write failed" rfl⟩

/-- Counterexample to claim C1 as stated: on an engine that fails exactly the
second chunk of the second dataframe, a call writing two 3-row dataframes
with chunk size 2 ends with the second dataframe's first chunk still durable
alongside both chunks of the first dataframe — the entire partial write of
the failing Dataset is not rolled back (chunks 0..k-1 survive, only the
failing chunk k is discarded), and both Datasets ran under one session with a
single connect and no session-level commit, so no Dataset has "its own
transaction". The error does propagate to the caller. -/
theorem partial_dataset_survives :
    (write_dataframe_to_db engFailLate "t" [⟨[("a", "int64")], 3⟩, ⟨[("b", "int64")], 3⟩]
      2 ⟨[]⟩).1 = Except.error (DSError.EngineError "chunk write failed") ∧
    (write_dataframe_to_db engFailLate "t" [⟨[("a", "int64")], 3⟩, ⟨[("b", "int64")], 3⟩]
      2 ⟨[]⟩).2.2.durable =
      [⟨"t", 0, 0, 2⟩, ⟨"t", 0, 2, 3⟩, ⟨"t", 1, 0, 2⟩] ∧
    (write_dataframe_to_db engFailLate "t" [⟨[("a", "int64")], 3⟩, ⟨[("b", "int64")], 3⟩]
      2 ⟨[]⟩).2.1.count Event.connect = 1 ∧
    Event.commit ∉
      (write_dataframe_to_db engFailLate "t" [⟨[("a", "int64")], 3⟩, ⟨[("b", "int64")], 3⟩]
        2 ⟨[]⟩).2.1 :=
  ⟨rfl, rfl, by decide, by decide⟩

/-- Claim C10 (confirmed): on every execution path of `write_dataframe_to_db`
the only session operations in the trace are the connect, the per-chunk table
writes, the rollback (which occurs only when the call returns an error), and
the close; in particular no commit is ever issued. -/
theorem write_never_commits (eng : Engine) (tn : String) (dfs : List DataFrame)
    (csize : Nat) (s : WriteState) :
    (∀ ev ∈ (write_dataframe_to_db eng tn dfs csize s).2.1, isSessionOp ev = true →
      ev = Event.connect ∨ (∃ c, ev = Event.writeChunk c) ∨
      ev = Event.rollback ∨ ev = Event.close) ∧
    Event.commit ∉ (write_dataframe_to_db eng tn dfs csize s).2.1 ∧
    (∀ u, (write_dataframe_to_db eng tn dfs csize s).1 = Except.ok u →
      Event.rollback ∉ (write_dataframe_to_db eng tn dfs csize s).2.1) := by
  obtain ⟨evs, hall, hcases⟩ := write_trace_cases eng tn dfs csize s
  rcases hcases with ⟨hres, htr, _⟩ | ⟨hres, htr, _, _⟩
  · refine ⟨?_, ?_, ?_⟩
    · intro ev hev hop
      rw [htr] at hev
      simp at hev
      rcases hev with h | h | h
      · exact Or.inl h
      · exact Or.inr (Or.inl (writeOrProgress_sessionOp ev (hall ev h) hop))
      · exact Or.inr (Or.inr (Or.inr h))
    · rw [htr]
      simp
      intro hmem
      have := hall Event.commit hmem
      simp [isWriteOrProgress] at this
    · intro u _
      rw [htr]
      simp
      intro hmem
      have := hall Event.rollback hmem
      simp [isWriteOrProgress] at this
  · refine ⟨?_, ?_, ?_⟩
    · intro ev hev hop
      rw [htr] at hev
      simp at hev
      rcases hev with h | h | h | h
      · exact Or.inl h
      · exact Or.inr (Or.inl (writeOrProgress_sessionOp ev (hall ev h) hop))
      · exact Or.inr (Or.inr (Or.inl h))
      · exact Or.inr (Or.inr (Or.inr h))
    · rw [htr]
      simp
      intro hmem
      have := hall Event.commit hmem
      simp [isWriteOrProgress] at this
    · intro u hu
      obtain ⟨e, he⟩ := hres
      rw [hu] at he
      exact absurd he (by simp)

/-- Witness for `write_never_commits`: a concrete successful 5-row write
issues neither a commit nor a rollback. -/
theorem write_never_commits_witness :
    Event.commit ∉
      (write_dataframe_to_db engOk "T" [⟨[("a", "int64")], 5⟩] 2 ⟨[]⟩).2.1 ∧
    Event.rollback ∉
      (write_dataframe_to_db engOk "T" [⟨[("a", "int64")], 5⟩] 2 ⟨[]⟩).2.1 :=
  ⟨(write_never_commits engOk "T" [⟨[("a", "int64")], 5⟩] 2 ⟨[]⟩).2.1,
   (write_never_commits engOk "T" [⟨[("a", "int64")], 5⟩] 2 ⟨[]⟩).2.2 () rfl⟩

/-- Counterexample to claim C6 as stated: writing a zero-row dataframe does
raise `EmptyDataFrameError`, but engine calls are issued before and around
the error — the session connect happens first (and a rollback and close
follow), so "issues no engine call" is false for the session-management
calls. -/
theorem empty_write_issues_connect :
    (write_dataframe_to_db engOk "t" [⟨[("a", "object")], 0⟩] 10 ⟨[]⟩).1 =
      Except.error (DSError.EmptyDataFrameError "DataFrame is empty.") ∧
    (write_dataframe_to_db engOk "t" [⟨[("a", "object")], 0⟩] 10 ⟨[]⟩).2.1 =
      [Event.connect, Event.rollback, Event.close] :=
  ⟨rfl, rfl⟩

/-- Claim C6 (corrected): writing a zero-row Dataset raises
`EmptyDataFrameError` before any statement execution or table write — the
trace contains only the session-management calls connect, rollback, close,
and nothing becomes durable — but the session connect is issued before the
error is raised, so the call is not entirely free of engine calls. -/
theorem empty_write_rejected (eng : Engine) (tn : String) (df : DataFrame)
    (csize : Nat) (s : WriteState) (h : df.nrows = 0) :
    (write_dataframe_to_db eng tn [df] csize s).1 =
      Except.error (DSError.EmptyDataFrameError "DataFrame is empty.") ∧
    (write_dataframe_to_db eng tn [df] csize s).2.1 =
      [Event.connect, Event.rollback, Event.close] ∧
    (write_dataframe_to_db eng tn [df] csize s).2.2.durable = s.durable := by
  have hemp : df.empty = true := by simp [DataFrame.empty, h]
  have hbody : ∀ s1 : WriteState, writeDfsLoop eng (strLower tn) csize [df] 0 s1 =
      (Except.error (DSError.EmptyDataFrameError "DataFrame is empty."), [], s1) := by
    intro s1
    rw [writeDfsLoop, infer_sql_types, hemp]
    simp
  rw [write_dataframe_to_db]
  simp [manage_session, writeOps, hbody]

/-- Witness for `empty_write_rejected` at a concrete zero-row dataframe. -/
theorem empty_write_rejected_witness :
    (write_dataframe_to_db engFail1 "Tbl" [⟨[("x", "int64")], 0⟩] 3 ⟨[]⟩).1 =
      Except.error (DSError.EmptyDataFrameError "DataFrame is empty.") ∧
    (write_dataframe_to_db engFail1 "Tbl" [⟨[("x", "int64")], 0⟩] 3 ⟨[]⟩).2.1 =
      [Event.connect, Event.rollback, Event.close] ∧
    (write_dataframe_to_db engFail1 "Tbl" [⟨[("x", "int64")], 0⟩] 3 ⟨[]⟩).2.2.durable =
      ([] : List ChunkWrite) :=
  empty_write_rejected engFail1 "Tbl" ⟨[("x", "int64")], 0⟩ 3 ⟨[]⟩ rfl

theorem lookup_eq_class (d : String) :
    (sql_type_mapping.lookup d).getD SqlType.String = specColumnClass d := by
  have hb : ∀ k : String, ¬ d = k → (d == k) = false :=
    fun k hk => beq_eq_false_iff_ne.mpr hk
  by_cases h1 : d = "object"
  · subst h1; rfl
  · by_cases h2 : d = "category"
    · subst h2; rfl
    · by_cases h3 : d = "string[pyarrow]"
      · subst h3; rfl
      · by_cases h4 : d = "double[pyarrow]"
        · subst h4; rfl
        · by_cases h5 : d = "datetime64[ns]"
          · subst h5; rfl
          · by_cases h6 : d = "timestamp[us][pyarrow]"
            · subst h6; rfl
            · by_cases h7 : d = "float64"
              · subst h7; rfl
              · by_cases h8 : d = "int64"
                · subst h8; rfl
                · simp [sql_type_mapping, specColumnClass, List.lookup,
                    hb _ h1, hb _ h2, hb _ h3, hb _ h4, hb _ h5, hb _ h6,
                    hb _ h7, hb _ h8, h1, h2, h3, h4, h5, h6, h7, h8]

/-- Counterexample to claim C3 as stated: the timezone-aware runtime
representations `datetime64[ns, UTC]` (pandas) and
`timestamp[us, tz=UTC][pyarrow]` (pyarrow) are date/timestamp
representations, yet `infer_sql_types` maps them to TEXT (`String`), not
DATE — the lookup table only recognizes the timezone-naive spellings. -/
theorem tz_datetime_maps_to_text :
    infer_sql_types ⟨[("ts", "datetime64[ns, UTC]")], 1⟩ =
      Except.ok [("ts", SqlType.String)] ∧
    infer_sql_types ⟨[("ts", "timestamp[us, tz=UTC][pyarrow]")], 1⟩ =
      Except.ok [("ts", SqlType.String)] ∧
    SqlType.String ≠ SqlType.DATE :=
  ⟨rfl, rfl, by decide⟩

/-- Claim C3 (corrected): for every non-empty Dataset the type inferencer
never raises and maps each column by its runtime representation string:
text/category representations to TEXT, 64-bit float/decimal-like to FLOAT,
64-bit integer to NUMERIC, and the timezone-naive date/timestamp
representations `datetime64[ns]` and `timestamp[us][pyarrow]` to DATE;
every other representation — including the timezone-aware date/timestamp
variants — maps to TEXT. -/
theorem infer_sql_types_mapping (df : DataFrame) (h : df.empty = false) :
    infer_sql_types df = Except.ok (df.cols.map fun c => (c.1, specColumnClass c.2)) := by
  rw [infer_sql_types, h]
  simp only [Bool.false_eq_true, if_false]
  congr 1
  apply List.map_congr_left
  intro c _
  rw [lookup_eq_class]

/-- Witness for `infer_sql_types_mapping` on a two-column frame with an
unrecognized dtype and a 64-bit integer dtype. -/
theorem infer_sql_types_mapping_witness :
    infer_sql_types ⟨[("a", "custom"), ("b", "int64")], 2⟩ =
      Except.ok ([("a", "custom"), ("b", "int64")].map fun c =>
        (c.1, specColumnClass c.2)) :=
  infer_sql_types_mapping ⟨[("a", "custom"), ("b", "int64")], 2⟩ rfl

theorem getRows_setTable (tbl : String) (rows : List Nat) :
    ∀ ts, getRows tbl (setTable tbl rows ts) = rows := by
  intro ts
  induction ts with
  | nil => simp [setTable, getRows, List.lookup]
  | cons p rest ih =>
    rcases p with ⟨k, v⟩
    rw [setTable]
    by_cases h : tbl = k
    · subst h
      simp [getRows, List.lookup]
    · rw [if_neg h]
      have hbeq : (tbl == k) = false := beq_eq_false_iff_ne.mpr h
      simpa [getRows, List.lookup, hbeq] using ih

/-- Claim C4 (confirmed): `empty_table` unconditionally removes all rows of
the table inside one session scope — the trace is exactly connect, the
TRUNCATE execution, close — succeeds, and the truncation is durable with no
explicit commit (TRUNCATE is auto-committing in the engine model); in
particular on an already-empty table it succeeds and the durable row list is
still empty. -/
theorem empty_table_spec (schema tn : String) (s : MaintState) :
    (empty_table schema tn s).1 = Except.ok () ∧
    (empty_table schema tn s).2.1 =
      [Event.connect, Event.executeTruncate schema tn, Event.close] ∧
    getRows tn (empty_table schema tn s).2.2.durable = [] :=
  ⟨rfl, rfl, getRows_setTable tn [] s.durable⟩

/-- Counterexample to claim C5 as stated: a `delete_records` call whose
delete statement matches 10 of 12 rows logs the affected row count 10 but
returns the unit value (Python `None`) — it does not return the affected row
count as an integer. -/
theorem delete_returns_none :
    (delete_records ⟨"t", fun r => decide (r < 10)⟩
      ⟨[("t", [0, 1, 2, 3, 4, 5, 6, 7, 8, 9, 10, 11])], []⟩).1 = Except.ok () ∧
    Event.logDeleted 10 ∈
      (delete_records ⟨"t", fun r => decide (r < 10)⟩
        ⟨[("t", [0, 1, 2, 3, 4, 5, 6, 7, 8, 9, 10, 11])], []⟩).2.1 :=
  ⟨rfl, by decide⟩

/-- Claim C5 (corrected): `delete_records` executes the delete inside one
session scope, logs the affected row count, and explicitly commits on
success, making the deletion durable; zero matching rows is not an error —
the call succeeds and logs a count of zero.  It returns `None` rather than
the affected row count. -/
theorem delete_records_spec (stmt : DeleteStmt) (s : MaintState) :
    (delete_records stmt s).1 = Except.ok () ∧
    (delete_records stmt s).2.1 =
      [Event.connect, Event.executeDelete stmt.table,
       Event.logDeleted ((getRows stmt.table s.durable).length -
         ((getRows stmt.table s.durable).filter fun r => !stmt.pred r).length),
       Event.commit, Event.close] ∧
    getRows stmt.table (delete_records stmt s).2.2.durable =
      (getRows stmt.table s.durable).filter fun r => !stmt.pred r :=
  ⟨rfl, rfl, getRows_setTable _ _ _⟩

/-- Claim C9 (confirmed): `execute_query` eagerly materializes the column
names and all result rows inside the session scope — the fetch happens
before the close in the trace — and returns them; a query answering zero
rows yields the column names with an empty row sequence, not an error. -/
theorem execute_query_spec (ans : QueryResult) (s : MaintState) :
    (execute_query ans s).1 = Except.ok (ans.columns, ans.rows) ∧
    (execute_query ans s).2.1 =
      [Event.connect, Event.executeSelect, Event.fetchAll, Event.close] ∧
    (execute_query ⟨ans.columns, []⟩ s).1 = Except.ok (ans.columns, []) :=
  ⟨rfl, rfl, rfl⟩

end DataScienceUtils
